import Mathlib

/-!
Shallow embedding of the range-request ZIP reader (`ZipReader` in
`src/lib/szi_reader.ts`).  Buffers are lists of byte values; the network
transport is modelled in two ways, both explicit in the definitions below:

* `fetchRange` processes one HTTP response object, exactly as the method does
  (check `response.ok`, return the body verbatim);
* the composed operations (`findEOCD`, `readCentralDirectory`,
  `readTableOfContents`, `extractFile`) run against a conforming server that
  answers a range request `bytes=s-e` with the exact slice of the hosted
  file, which is `sliceRange`.  Each of these operations also returns the
  list of range requests it issued, so that read-count claims are statable.

All numbers are `Nat`; the 16/32-bit reads take bytes from the buffer the
way `DataView.getUint16/getUint32` (little-endian) do, and an out-of-range
read is `none` where the JS call throws a `RangeError` that the callers
catch.
-/

/-- Little-endian 16-bit read, as `DataView.getUint16(i, true)`; `none`
models the `RangeError` thrown on an out-of-bounds read. -/
def getU16 (b : List Nat) (i : Nat) : Option Nat :=
  match b.get? i, b.get? (i + 1) with
  | some lo, some hi => some (lo + hi * 256)
  | _, _ => none

/-- Little-endian 32-bit read, as `DataView.getUint32(i, true)`. -/
def getU32 (b : List Nat) (i : Nat) : Option Nat :=
  match getU16 b i, getU16 b (i + 2) with
  | some lo, some hi => some (lo + hi * 65536)
  | _, _ => none

/-- The bytes a conforming range server returns for the inclusive request
`bytes=s-e` against the hosted file. -/
def sliceRange (file : List Nat) (s e : Nat) : List Nat :=
  (file.drop s).take (e + 1 - s)

/-- U+FFFD, the replacement character used by `TextDecoder`. -/
def replacementChar : Char := Char.ofNat 0xFFFD

/-- Is a byte a UTF-8 continuation byte. -/
def isCont (b : Nat) : Bool := 128 ≤ b && b < 192

/-- UTF-8 decoding of a byte list, modelling `new TextDecoder().decode`:
valid sequences decode to their code point, malformed input yields
replacement characters (the exact count of replacement characters for
malformed input is not observed by any theorem below).  The recursion is
driven by a fuel argument, kept at least the length of the remaining list,
so that the definition is structurally recursive and computes by kernel
reduction. -/
def utf8DecodeAux : Nat → List Nat → List Char
  | 0, _ => []
  | _, [] => []
  | fuel + 1, b :: rest =>
    if b < 128 then Char.ofNat b :: utf8DecodeAux fuel rest
    else if b < 194 then replacementChar :: utf8DecodeAux fuel rest
    else if b < 224 then
      match rest with
      | b1 :: rest1 =>
        if isCont b1 then
          Char.ofNat ((b - 192) * 64 + (b1 - 128)) :: utf8DecodeAux fuel rest1
        else replacementChar :: utf8DecodeAux fuel (b1 :: rest1)
      | [] => [replacementChar]
    else if b < 240 then
      match rest with
      | b1 :: b2 :: rest2 =>
        if isCont b1 && isCont b2 &&
            2048 ≤ (b - 224) * 4096 + (b1 - 128) * 64 + (b2 - 128) &&
            !(55296 ≤ (b - 224) * 4096 + (b1 - 128) * 64 + (b2 - 128) &&
              (b - 224) * 4096 + (b1 - 128) * 64 + (b2 - 128) < 57344) then
          Char.ofNat ((b - 224) * 4096 + (b1 - 128) * 64 + (b2 - 128)) ::
            utf8DecodeAux fuel rest2
        else replacementChar :: utf8DecodeAux fuel (b1 :: b2 :: rest2)
      | [b1] => replacementChar :: utf8DecodeAux fuel [b1]
      | [] => [replacementChar]
    else if b < 245 then
      match rest with
      | b1 :: b2 :: b3 :: rest3 =>
        if isCont b1 && isCont b2 && isCont b3 &&
            65536 ≤ (b - 240) * 262144 + (b1 - 128) * 4096 + (b2 - 128) * 64 + (b3 - 128) &&
            (b - 240) * 262144 + (b1 - 128) * 4096 + (b2 - 128) * 64 + (b3 - 128) < 1114112 then
          Char.ofNat ((b - 240) * 262144 + (b1 - 128) * 4096 + (b2 - 128) * 64 + (b3 - 128)) ::
            utf8DecodeAux fuel rest3
        else replacementChar :: utf8DecodeAux fuel (b1 :: b2 :: b3 :: rest3)
      | [b1, b2] => replacementChar :: utf8DecodeAux fuel [b1, b2]
      | [b1] => replacementChar :: utf8DecodeAux fuel [b1]
      | [] => [replacementChar]
    else replacementChar :: utf8DecodeAux fuel rest

/-- `new TextDecoder().decode(bytes)`. -/
def utf8Decode (l : List Nat) : String := String.mk (utf8DecodeAux l.length l)

/-- Equality of `Except` values is decidable when both components are. -/
instance {ε α : Type} [DecidableEq ε] [DecidableEq α] : DecidableEq (Except ε α) := fun a b =>
  match a, b with
  | Except.error x, Except.error y =>
    match decEq x y with
    | isTrue h => isTrue (by rw [h])
    | isFalse h => isFalse (by intro hh; injection hh with h2; exact h h2)
  | Except.error _, Except.ok _ => isFalse fun hh => Except.noConfusion hh
  | Except.ok _, Except.error _ => isFalse fun hh => Except.noConfusion hh
  | Except.ok x, Except.ok y =>
    match decEq x y with
    | isTrue h => isTrue (by rw [h])
    | isFalse h => isFalse (by intro hh; injection hh with h2; exact h h2)

/-- JavaScript `String.prototype.length`: the number of UTF-16 code units. -/
def jsLength (s : String) : Nat :=
  (s.data.map fun c => if c.toNat < 65536 then 1 else 2).sum

/-- Modelled from the spec wording of the resolver: the UTF-8 byte length of
a filename ("byte length, not character count").  Spec-side definition, to
be compared with what the code computes. -/
def utf8Length (s : String) : Nat :=
  (s.data.map fun c =>
    if c.toNat < 128 then 1
    else if c.toNat < 2048 then 2
    else if c.toNat < 65536 then 3
    else 4).sum

/-- JavaScript `String.prototype.endsWith`. -/
def jsEndsWith (s suffix : String) : Bool := List.isSuffixOf suffix.data s.data

/-- JavaScript `String.prototype.toLowerCase` (ASCII range, which is all the
source ever compares against). -/
def jsToLowerCase (s : String) : String := String.mk (s.data.map Char.toLower)

/-- The error taxonomy of the reader (the TS code throws `Error` values with
these meanings; the spec names them as below). -/
inductive ZipError where
  | transportError
  | missingLengthError
  | recordNotFoundError
  | signatureMismatchError
  | invalidEOCDSignature
  | rangeError
  deriving DecidableEq, Repr

/-- The `ZipReader` instance state: the URL given to the constructor and the
`fileSize` field (initialised to `0`). -/
structure ZipReader where
  url : String
  fileSize : Nat
  deriving DecidableEq, Repr

/-- `new ZipReader(url)`. -/
def mkZipReader (url : String) : ZipReader := { url := url, fileSize := 0 }

/-- The EOCD record as parsed by `parseEOCD`. -/
structure EOCD where
  diskNumber : Nat
  centralDirDisk : Nat
  diskEntryCount : Nat
  totalEntryCount : Nat
  centralDirSize : Nat
  centralDirOffset : Nat
  commentLength : Nat
  absoluteOffset : Nat
  deriving DecidableEq, Repr

/-- The `FileEntry` type of the TS module.  `dataOffset`, `fileNameLength`
and `extraFieldLength` are `undefined` (here `none`) on entries fresh from
the central-directory decoder and are populated by
`calculateFileDataOffset`. -/
structure FileEntry where
  fileName : String
  compressedSize : Nat
  uncompressedSize : Nat
  fileNameLength : Option Nat
  localHeaderOffset : Nat
  extraFieldLength : Option Nat
  dataOffset : Option Nat
  isDirectory : Bool
  isImage : Bool
  deriving DecidableEq, Repr

/-- One HTTP response to a HEAD request: the success flag and the
`content-length` header (already parsed to a number when present). -/
structure HeadResponse where
  ok : Bool
  contentLength : Option Nat
  deriving DecidableEq, Repr

/-- One HTTP response to a range request. -/
structure RangeResponse where
  ok : Bool
  body : List Nat
  deriving DecidableEq, Repr

/-- The content kind of the `Blob` returned by `extractFile`
(`image/png`, `image/jpeg`, or a type-less generic blob). -/
inductive ContentKind where
  | png
  | jpeg
  | binary
  deriving DecidableEq, Repr

/-- The `Blob` produced by `extractFile`: bytes plus a content kind. -/
structure ExtractedContent where
  bytes : List Nat
  kind : ContentKind
  deriving DecidableEq, Repr

/-- `getFileSize`: issue a HEAD request, fail on a non-success status, fail
when no `content-length` header is present, otherwise assign
`this.fileSize` (unconditionally) and return it. -/
def getFileSize (resp : HeadResponse) (st : ZipReader) :
    Except ZipError (ZipReader × Nat) :=
  if resp.ok then
    match resp.contentLength with
    | none => Except.error ZipError.missingLengthError
    | some n => Except.ok ({ st with fileSize := n }, n)
  else Except.error ZipError.transportError

/-- `fetchRange(start, end)` applied to the HTTP response it received: a
non-success response throws, and otherwise the response body is returned
as-is (`start` and `endPos` only feed the `Range: bytes=start-end` header
and are not compared against the body). -/
def fetchRange (start endPos : Nat) (resp : RangeResponse) :
    Except ZipError (List Nat) :=
  if resp.ok then Except.ok resp.body else Except.error ZipError.transportError

/-- `parseEOCD`: verify the EOCD signature and decode the fixed 22-byte
layout.  `absoluteOffset` is set to `0` here and overwritten by the
caller. -/
def parseEOCD (buffer : List Nat) : Option EOCD :=
  match getU32 buffer 0 with
  | none => none
  | some signature =>
    if signature = 0x06054b50 then
      match getU16 buffer 4, getU16 buffer 6, getU16 buffer 8,
          getU16 buffer 10, getU32 buffer 12, getU32 buffer 16,
          getU16 buffer 20 with
      | some diskNumber, some centralDirDisk, some diskEntryCount,
          some totalEntryCount, some centralDirSize, some centralDirOffset,
          some commentLength =>
        some { diskNumber, centralDirDisk, diskEntryCount, totalEntryCount,
               centralDirSize, centralDirOffset, commentLength,
               absoluteOffset := 0 }
      | _, _, _, _, _, _, _ => none
    else none

/-- The guard at the top of `findEOCD`:
`if (!this.fileSize) await this.getFileSize()`, run against the conforming
server, whose HEAD response reports the exact hosted length. -/
def ensureFileSize (file : List Nat) (st : ZipReader) : ZipReader :=
  if st.fileSize = 0 then { st with fileSize := file.length } else st

/-- The byte at which the EOCD signature `50 4B 05 06` stands. -/
def sigAtEOCD (bytes : List Nat) (i : Nat) : Bool :=
  (bytes.get? i == some 0x50) && (bytes.get? (i + 1) == some 0x4b) &&
    (bytes.get? (i + 2) == some 0x05) && (bytes.get? (i + 3) == some 0x06)

/-- The backward scan loop of `findEOCD`
(`for (let i = bytes.length - 22; i >= 0; i--)`), started at its first
index: the greatest `i ≤ n` carrying the signature. -/
def eocdScan (bytes : List Nat) : Nat → Option Nat
  | 0 => if sigAtEOCD bytes 0 then some 0 else none
  | n + 1 => if sigAtEOCD bytes (n + 1) then some (n + 1) else eocdScan bytes n

/-- The part of `findEOCD` that works on the fetched trailing window
`bytes`, whose first byte sits at archive position `startPos`: scan
backward from `bytes.length - 22` for the EOCD signature, decode the
22-byte record at the match and stamp it with its absolute position.  When
the window holds fewer than 22 bytes the JS loop starts at a negative index
and never runs, so the record is not found. -/
def findEOCDCore (bytes : List Nat) (startPos : Nat) : Except ZipError EOCD :=
  if bytes.length < 22 then Except.error ZipError.recordNotFoundError
  else
    match eocdScan bytes (bytes.length - 22) with
    | some i =>
      match parseEOCD ((bytes.drop i).take 22) with
      | some record => Except.ok { record with absoluteOffset := startPos + i }
      | none => Except.error ZipError.invalidEOCDSignature
    | none => Except.error ZipError.recordNotFoundError

/-- `findEOCD` against the conforming server: ensure the size is known, read
the trailing window of `min(65535 + 22, fileSize)` bytes in one range
request, and run the backward scan and decode (`findEOCDCore`) on it.  The
second component is the list of range requests issued. -/
def findEOCD (file : List Nat) (st : ZipReader) :
    Except ZipError (EOCD × ZipReader) × List (Nat × Nat) :=
  let st2 := ensureFileSize file st
  let bufferSize := min (65535 + 22) st2.fileSize
  let startPos := st2.fileSize - bufferSize
  let endPos := st2.fileSize - 1
  let bytes := sliceRange file startPos endPos
  (match findEOCDCore bytes startPos with
   | Except.ok record => Except.ok (record, st2)
   | Except.error err => Except.error err,
   [(startPos, endPos)])

/-- `parseCentralDirEntry`: verify the central-directory signature at
`offset`, decode the fixed fields, slice and UTF-8-decode the filename,
classify the entry from its name, and return it with the offset of the next
entry. -/
def parseCentralDirEntry (buffer : List Nat) (offset : Nat) :
    Except ZipError (FileEntry × Nat) :=
  match getU32 buffer offset with
  | none => Except.error ZipError.rangeError
  | some signature =>
    if signature = 0x02014b50 then
      match getU16 buffer (offset + 28), getU16 buffer (offset + 30),
          getU16 buffer (offset + 32) with
      | some fnLen, some extraLen, some cmtLen =>
        match getU32 buffer (offset + 20), getU32 buffer (offset + 24),
            getU32 buffer (offset + 42) with
        | some compSize, some uncompSize, some lhOff =>
          let fileName := utf8Decode ((buffer.drop (offset + 46)).take fnLen)
          let isDir := jsEndsWith fileName "/"
          let isImg := !isDir &&
            (jsEndsWith (jsToLowerCase fileName) ".jpg" ||
             jsEndsWith (jsToLowerCase fileName) ".jpeg" ||
             jsEndsWith (jsToLowerCase fileName) ".png")
          Except.ok
            ({ fileName := fileName, compressedSize := compSize,
               uncompressedSize := uncompSize, fileNameLength := none,
               localHeaderOffset := lhOff, extraFieldLength := none,
               dataOffset := none, isDirectory := isDir, isImage := isImg },
             offset + (46 + fnLen + extraLen + cmtLen))
        | _, _, _ => Except.error ZipError.rangeError
      | _, _, _ => Except.error ZipError.rangeError
    else Except.error ZipError.signatureMismatchError

/-- The decode loop of `readCentralDirectory`: up to `n` entries are decoded
in sequence; the `try/catch` around the body catches any parse failure,
breaks, and keeps the entries decoded so far. -/
def readEntries (buffer : List Nat) : Nat → Nat → List FileEntry
  | 0, _ => []
  | n + 1, off =>
    match parseCentralDirEntry buffer off with
    | Except.ok (e, noff) => e :: readEntries buffer n noff
    | Except.error _ => []

/-- The bytes the conforming server returns for the central-directory range
request `[centralDirOffset, centralDirOffset + centralDirSize - 1]`. -/
def centralDirBuffer (file : List Nat) (eocd : EOCD) : List Nat :=
  sliceRange file eocd.centralDirOffset
    (eocd.centralDirOffset + eocd.centralDirSize - 1)

/-- `readCentralDirectory`: one range request for the whole central
directory, then the sequential decode loop.  The second component is the
issued range-request list. -/
def readCentralDirectory (file : List Nat) (eocd : EOCD) :
    List FileEntry × List (Nat × Nat) :=
  (readEntries (centralDirBuffer file eocd) eocd.totalEntryCount 0,
   [(eocd.centralDirOffset, eocd.centralDirOffset + eocd.centralDirSize - 1)])

/-- `calculateFileDataOffset`: pure arithmetic on the entry.  The filename
length used is `entry.fileName.length`, the JavaScript string length, and
the extra-field length is assumed `0`.  The `try/catch` body cannot throw,
so the best-guess fallback branch of the source is dead code. -/
def calculateFileDataOffset (entry : FileEntry) : FileEntry :=
  let headerSize := 30
  let fileNameLen := jsLength entry.fileName
  let extraFieldLen := 0
  { entry with
    dataOffset := some (entry.localHeaderOffset + headerSize + fileNameLen + extraFieldLen),
    fileNameLength := some fileNameLen,
    extraFieldLength := some extraFieldLen }

/-- `readTableOfContents`: locate the EOCD, decode the central directory,
then map every non-directory entry through the resolver (`Promise.all`
over `entries.map`, which keeps original index order). -/
def readTableOfContents (file : List Nat) (st : ZipReader) :
    Except ZipError (List FileEntry × ZipReader) × List (Nat × Nat) :=
  match findEOCD file st with
  | (Except.error err, log) => (Except.error err, log)
  | (Except.ok (eocd, st2), log1) =>
    let dir := readCentralDirectory file eocd
    let processed := dir.1.map fun entry =>
      if entry.isDirectory then entry else calculateFileDataOffset entry
    (Except.ok (processed, st2), log1 ++ dir.2)

/-- The guard at the top of `extractFile`:
`if (!entry.dataOffset) await this.calculateFileDataOffset(entry)`.
JavaScript falsiness: `undefined` and `0` both trigger resolution. -/
def ensureResolved (entry : FileEntry) : FileEntry :=
  if entry.dataOffset.getD 0 = 0 then calculateFileDataOffset entry else entry

/-- `extractFile` against the conforming server: resolve if needed, read
`[dataOffset, dataOffset + compressedSize - 1]` in one range request, and
wrap the bytes in a `Blob` whose type comes from the filename extension. -/
def extractFile (file : List Nat) (entry : FileEntry) :
    ExtractedContent × List (Nat × Nat) :=
  let resolved := ensureResolved entry
  let dOff := resolved.dataOffset.getD 0
  let endPos := dOff + resolved.compressedSize - 1
  let buffer := sliceRange file dOff endPos
  let lower := jsToLowerCase resolved.fileName
  let content :=
    if jsEndsWith lower ".jpg" || jsEndsWith lower ".jpeg" ||
        jsEndsWith lower ".png" then
      { bytes := buffer,
        kind := if jsEndsWith lower ".png" then ContentKind.png else ContentKind.jpeg }
    else { bytes := buffer, kind := ContentKind.binary }
  (content, [(dOff, endPos)])

/-- Decode exactly `n` consecutive central-directory entries starting at
`off`; the specification-side description of "the first n entries decode
successfully", used to state the partial-success and listing claims. -/
def parseN (buffer : List Nat) : Nat → Nat → Except ZipError (List FileEntry × Nat)
  | 0, off => Except.ok ([], off)
  | n + 1, off =>
    match parseCentralDirEntry buffer off with
    | Except.error e => Except.error e
    | Except.ok (en, noff) =>
      match parseN buffer n noff with
      | Except.error e => Except.error e
      | Except.ok (es, fin) => Except.ok (en :: es, fin)

/-- Modelled from the spec wording of the extractor: `.png` maps to
image/png, `.jpg`/`.jpeg` to image/jpeg (case-insensitive), anything else
to a generic binary blob.  Spec-side definition, compared against
`extractFile`. -/
def specContentKind (name : String) : ContentKind :=
  if jsEndsWith (jsToLowerCase name) ".png" then ContentKind.png
  else if jsEndsWith (jsToLowerCase name) ".jpg" ||
      jsEndsWith (jsToLowerCase name) ".jpeg" then ContentKind.jpeg
  else ContentKind.binary

/-- A minimal hosted archive: one stored entry named `a` whose single data
byte is `88`.  Local header bytes 0 to 30 (never read by the reader), data
at 31, central directory at 32 (47 bytes), EOCD at 79. -/
def cdEntryA : List Nat :=
  [0x50, 0x4b, 0x01, 0x02] ++ List.replicate 16 0 ++
  [1, 0, 0, 0] ++ [1, 0, 0, 0] ++ [1, 0] ++ [0, 0] ++ [0, 0] ++
  [0, 0] ++ [0, 0] ++ [0, 0, 0, 0] ++ [0, 0, 0, 0] ++ [97]

/-- The 22 EOCD bytes claiming `total` entries in a `size`-byte central
directory at offset `off` (single-byte fields suffice for the fixtures). -/
def eocdBytes (total size off : Nat) : List Nat :=
  [0x50, 0x4b, 0x05, 0x06] ++ [0, 0] ++ [0, 0] ++ [1, 0] ++ [total, 0] ++
  [size, 0, 0, 0] ++ [off, 0, 0, 0] ++ [0, 0]

/-- The well-formed one-entry fixture archive (101 bytes). -/
def arc1 : List Nat :=
  List.replicate 31 9 ++ [88] ++ cdEntryA ++ eocdBytes 1 47 32

/-- A fixture archive whose EOCD claims 3 entries but whose central
directory holds one valid entry followed by garbage bytes (105 bytes). -/
def arcBad : List Nat :=
  List.replicate 31 9 ++ [88] ++ cdEntryA ++ [1, 2, 3, 4] ++ eocdBytes 3 51 32

/-- A 30-byte fixture whose only EOCD-signature occurrence starts at index
12, inside the final 21 bytes, where the 22-byte record cannot fit. -/
def arcTailSig : List Nat :=
  List.replicate 12 0 ++ [0x50, 0x4b, 0x05, 0x06] ++ List.replicate 14 0

/-- The entry decoded from the fixture central directory. -/
def entryA : FileEntry :=
  { fileName := "a", compressedSize := 1, uncompressedSize := 1,
    fileNameLength := none, localHeaderOffset := 0, extraFieldLength := none,
    dataOffset := none, isDirectory := false, isImage := false }

/-- The EOCD record of `arc1` as `findEOCD` returns it. -/
def eocd1 : EOCD :=
  { diskNumber := 0, centralDirDisk := 0, diskEntryCount := 1,
    totalEntryCount := 1, centralDirSize := 47, centralDirOffset := 32,
    commentLength := 0, absoluteOffset := 79 }

/-- The EOCD record of `arcBad` as `findEOCD` returns it. -/
def eocdBad : EOCD :=
  { diskNumber := 0, centralDirDisk := 0, diskEntryCount := 1,
    totalEntryCount := 3, centralDirSize := 51, centralDirOffset := 32,
    commentLength := 0, absoluteOffset := 83 }

/-- A non-directory entry whose name holds a multi-byte character: the
filename bytes `C3 A9 2E 6A 70 67` decode to `é.jpg`. -/
def entryEacute : FileEntry :=
  { fileName := "é.jpg", compressedSize := 4, uncompressedSize := 4,
    fileNameLength := none, localHeaderOffset := 0, extraFieldLength := none,
    dataOffset := none, isDirectory := false, isImage := true }

/-- Claim C1 (status: code bug, evaluated at the failing input).  The claim
says the resolver sets the data offset to `localHeaderOffset + 30 +` the
UTF-8 byte length of the filename, also for names with multi-byte
characters.  The code uses the JavaScript string length, which counts UTF-16
code units: for the entry whose name bytes `C3 A9 2E 6A 70 67` decode to
`é.jpg` and whose local header offset is `0`, the code produces offset
`0 + 30 + 5 = 35`, while the UTF-8 byte length of the name is 6, so the
claimed offset is `36`. -/
theorem dataOffset_uses_utf16_units :
    utf8Decode [195, 169, 46, 106, 112, 103] = entryEacute.fileName ∧
    jsLength entryEacute.fileName = 5 ∧
    utf8Length entryEacute.fileName = 6 ∧
    (calculateFileDataOffset entryEacute).dataOffset = some 35 ∧
    (calculateFileDataOffset entryEacute).dataOffset ≠
      some (entryEacute.localHeaderOffset + 30 + utf8Length entryEacute.fileName) := by
  decide

/-- Claim C2, counterexample.  The claim says a buffer shorter than
`end - start + 1` is treated as a transport error.  `fetchRange` checks only
`response.ok` and returns the body verbatim: for the request `bytes=0-9`
answered with a successful 3-byte body, the call completes without error and
hands back the short buffer. -/
theorem fetchRange_accepts_short_buffer :
    fetchRange 0 9 { ok := true, body := [1, 2, 3] } = Except.ok [1, 2, 3] ∧
    ([1, 2, 3] : List Nat).length ≠ 9 - 0 + 1 := by
  decide

/-- Claim C2 as amended: `readRange` fails with `TransportError` exactly on
a non-success response; on a success response the body is returned
unchanged, with no length validation, so a buffer shorter than
`end - start + 1` is silently accepted. -/
theorem fetchRange_amended (start endPos : Nat) (resp : RangeResponse) :
    (resp.ok = true → fetchRange start endPos resp = Except.ok resp.body) ∧
    (resp.ok = false → fetchRange start endPos resp = Except.error ZipError.transportError) := by
  constructor
  · intro h
    simp [fetchRange, h]
  · intro h
    simp [fetchRange, h]

/-- Witness for the amended claim C2 at a concrete request and response. -/
theorem fetchRange_amended_witness :
    fetchRange 0 9 { ok := true, body := [1, 2, 3] } = Except.ok [1, 2, 3] ∧
    fetchRange 0 9 { ok := false, body := [] } = Except.error ZipError.transportError :=
  ⟨(fetchRange_amended 0 9 { ok := true, body := [1, 2, 3] }).1 rfl,
   (fetchRange_amended 0 9 { ok := false, body := [] }).2 rfl⟩

/-- Claim C7, counterexample.  The claim says that once fetched, no
subsequent operation on the handle, including further size queries, changes
the cached length.  `getFileSize` assigns `this.fileSize` unconditionally on
every call: a first query reporting length 100 populates the cache, and a
second query reporting 200 overwrites it. -/
theorem getFileSize_overwrites_cached_length :
    getFileSize { ok := true, contentLength := some 100 } (mkZipReader "u") =
      Except.ok ({ url := "u", fileSize := 100 }, 100) ∧
    getFileSize { ok := true, contentLength := some 200 } { url := "u", fileSize := 100 } =
      Except.ok ({ url := "u", fileSize := 200 }, 200) ∧
    (200 : Nat) ≠ 100 := by
  decide

/-- Claim C7 as amended: the total byte length is populated on the first
size query; a populated (nonzero) cached length is never changed by EOCD
location (hence by listing or extraction), because `findEOCD` re-queries
the size only when the cached length is zero; an explicit size query,
however, always re-issues the HEAD request and overwrites the cached length
with the newly reported value. -/
theorem fileSize_immutable_amended (file : List Nat) (st : ZipReader)
    (resp : HeadResponse) (n : Nat) (hpop : st.fileSize ≠ 0) :
    ensureFileSize file st = st ∧
    (∀ e st2 log, findEOCD file st = (Except.ok (e, st2), log) → st2 = st) ∧
    (resp.ok = true → resp.contentLength = some n →
      getFileSize resp st = Except.ok ({ st with fileSize := n }, n)) ∧
    ensureFileSize file (mkZipReader st.url) = { url := st.url, fileSize := file.length } := by
  have h1 : ensureFileSize file st = st := by
    unfold ensureFileSize
    rw [if_neg hpop]
  refine ⟨h1, ?_, ?_, ?_⟩
  · intro e st2 log h
    simp only [findEOCD, h1] at h
    split at h
    · simp at h
      exact h.1.2.symm
    · simp at h
  · intro hok hcl
    simp [getFileSize, hok, hcl]
  · simp [ensureFileSize, mkZipReader]

/-- Witness for the amended claim C7: a handle with populated length 101 is
left unchanged by the EOCD-location guard, and an explicit size query
overwrites the cache with the newly reported length 7. -/
theorem fileSize_immutable_amended_witness :
    ensureFileSize arc1 { url := "u", fileSize := 101 } = { url := "u", fileSize := 101 } ∧
    getFileSize { ok := true, contentLength := some 7 } { url := "u", fileSize := 101 } =
      Except.ok ({ url := "u", fileSize := 7 }, 7) := by
  have h := fileSize_immutable_amended arc1 { url := "u", fileSize := 101 }
    { ok := true, contentLength := some 7 } 7 (by decide)
  exact ⟨h.1, h.2.2.1 rfl rfl⟩

/-- Claim C9 (confirmed): offset resolution is idempotent and
deterministic, a pure total function of the entry: applying
`calculateFileDataOffset` to an entry and then again to the result yields
the very same entry, in particular an identical data offset. -/
theorem calculateFileDataOffset_idempotent :
    ∀ e : FileEntry,
      calculateFileDataOffset (calculateFileDataOffset e) = calculateFileDataOffset e ∧
      (calculateFileDataOffset (calculateFileDataOffset e)).dataOffset =
        (calculateFileDataOffset e).dataOffset :=
  fun _ => ⟨rfl, rfl⟩

/-- Claim C10 (confirmed): every resolved data offset equals
`localHeaderOffset + 30 + fileNameLength`, hence is at least 30 and never
zero; therefore the falsy guard of `extractFile` keeps an already-resolved
entry untouched and triggers resolution exactly for an entry whose
`dataOffset` was never populated. -/
theorem resolved_dataOffset_nonzero (e : FileEntry) (hnone : e.dataOffset = none) :
    (calculateFileDataOffset e).dataOffset =
      some (e.localHeaderOffset + 30 + jsLength e.fileName) ∧
    30 ≤ (calculateFileDataOffset e).dataOffset.getD 0 ∧
    (calculateFileDataOffset e).dataOffset ≠ some 0 ∧
    ensureResolved (calculateFileDataOffset e) = calculateFileDataOffset e ∧
    ensureResolved e = calculateFileDataOffset e := by
  have hval : (calculateFileDataOffset e).dataOffset =
      some (e.localHeaderOffset + 30 + jsLength e.fileName) := by
    simp [calculateFileDataOffset]
  refine ⟨hval, ?_, ?_, ?_, ?_⟩
  · rw [hval]
    simp [Option.getD]
    omega
  · rw [hval]
    intro h
    injection h with h2
    omega
  · unfold ensureResolved
    rw [hval]
    simp only [Option.getD]
    rw [if_neg (by omega)]
  · unfold ensureResolved
    rw [hnone]
    simp [Option.getD]

/-- Witness for claim C10 at the concrete fixture entry. -/
theorem resolved_dataOffset_nonzero_witness :
    (calculateFileDataOffset entryA).dataOffset = some (entryA.localHeaderOffset + 30 + jsLength entryA.fileName) ∧
    30 ≤ (calculateFileDataOffset entryA).dataOffset.getD 0 ∧
    (calculateFileDataOffset entryA).dataOffset ≠ some 0 ∧
    ensureResolved (calculateFileDataOffset entryA) = calculateFileDataOffset entryA ∧
    ensureResolved entryA = calculateFileDataOffset entryA :=
  resolved_dataOffset_nonzero entryA rfl

/-- Decoding exactly `n` entries yields a list of length `n`. -/
theorem parseN_length (buffer : List Nat) :
    ∀ n off es fin, parseN buffer n off = Except.ok (es, fin) → es.length = n := by
  intro n
  induction n with
  | zero =>
    intro off es fin h
    simp only [parseN, Except.ok.injEq, Prod.mk.injEq] at h
    rw [← h.1]
    rfl
  | succ m ih =>
    intro off es fin h
    simp only [parseN] at h
    split at h
    · exact absurd h (by simp)
    · rename_i en noff heq
      split at h
      · exact absurd h (by simp)
      · rename_i es2 fin2 heq2
        simp only [Except.ok.injEq, Prod.mk.injEq] at h
        obtain ⟨hes, hfin⟩ := h
        rw [← hes]
        simp only [List.length_cons]
        rw [ih _ _ _ heq2]

/-- When the first `n` entries all decode, the decode loop returns exactly
those `n` entries. -/
theorem readEntries_of_parseN_ok (buffer : List Nat) :
    ∀ n off es fin, parseN buffer n off = Except.ok (es, fin) →
      readEntries buffer n off = es := by
  intro n
  induction n with
  | zero =>
    intro off es fin h
    simp only [parseN, Except.ok.injEq, Prod.mk.injEq] at h
    rw [readEntries, ← h.1]
  | succ m ih =>
    intro off es fin h
    simp only [parseN] at h
    split at h
    · exact absurd h (by simp)
    · rename_i en noff heq
      split at h
      · exact absurd h (by simp)
      · rename_i es2 fin2 heq2
        simp only [Except.ok.injEq, Prod.mk.injEq] at h
        obtain ⟨hes, hfin⟩ := h
        rw [readEntries, heq]
        show en :: readEntries buffer m noff = es
        rw [ih _ _ _ heq2]
        exact hes

/-- When the first `m` entries decode and the next one fails, the decode
loop (run for any bound greater than `m`) returns exactly the first `m`
entries: the caught failure breaks the loop and keeps prior work. -/
theorem readEntries_of_parseN_stop (buffer : List Nat) :
    ∀ m n off es fin err, parseN buffer m off = Except.ok (es, fin) →
      parseCentralDirEntry buffer fin = Except.error err → m < n →
      readEntries buffer n off = es := by
  intro m
  induction m with
  | zero =>
    intro n off es fin err h hf hmn
    simp only [parseN, Except.ok.injEq, Prod.mk.injEq] at h
    obtain ⟨hes, hfin⟩ := h
    cases n with
    | zero => omega
    | succ k =>
      rw [readEntries, hfin, hf]
      exact hes
  | succ m ih =>
    intro n off es fin err h hf hmn
    simp only [parseN] at h
    split at h
    · exact absurd h (by simp)
    · rename_i en noff heq
      split at h
      · exact absurd h (by simp)
      · rename_i es2 fin2 heq2
        simp only [Except.ok.injEq, Prod.mk.injEq] at h
        obtain ⟨hes, hfin⟩ := h
        cases n with
        | zero => omega
        | succ k =>
          rw [readEntries, heq]
          show en :: readEntries buffer k noff = es
          rw [ih k noff es2 fin err (by rw [heq2, hfin]) hf (by omega)]
          exact hes

/-- Claim C3 (confirmed): when the k-th central-directory entry (with
`1 ≤ k ≤ totalEntryCount`) is the first to fail its signature check, the
directory decode returns exactly the k-1 entries decoded before it, and the
failure does not escape: the listing call still returns successfully with
those k-1 entries (mapped through offset resolution). -/
theorem readCentralDirectory_partial_success (file : List Nat) (eocd : EOCD)
    (k : Nat) (es : List FileEntry) (fin : Nat)
    (hk1 : 1 ≤ k) (hk2 : k ≤ eocd.totalEntryCount)
    (hok : parseN (centralDirBuffer file eocd) (k - 1) 0 = Except.ok (es, fin))
    (hfail : parseCentralDirEntry (centralDirBuffer file eocd) fin =
      Except.error ZipError.signatureMismatchError) :
    (readCentralDirectory file eocd).1 = es ∧
    es.length = k - 1 ∧
    (∀ st st2 log, findEOCD file st = (Except.ok (eocd, st2), log) →
      (readTableOfContents file st).1 =
        Except.ok
          (es.map fun en => if en.isDirectory then en else calculateFileDataOffset en,
           st2)) := by
  have hre : readEntries (centralDirBuffer file eocd) eocd.totalEntryCount 0 = es :=
    readEntries_of_parseN_stop (centralDirBuffer file eocd) (k - 1)
      eocd.totalEntryCount 0 es fin ZipError.signatureMismatchError hok hfail (by omega)
  refine ⟨?_, parseN_length _ _ _ _ _ hok, ?_⟩
  · simp only [readCentralDirectory]
    exact hre
  · intro st st2 log hfe
    simp only [readTableOfContents, hfe, readCentralDirectory, hre]

/-- Witness for claim C3 on the fixture archive whose EOCD claims three
entries while the second entry in the central directory is garbage: the
listing returns exactly the one valid entry. -/
theorem readCentralDirectory_partial_success_witness :
    (readCentralDirectory arcBad eocdBad).1 = [entryA] ∧
    ([entryA] : List FileEntry).length = 2 - 1 ∧
    (∀ st st2 log, findEOCD arcBad st = (Except.ok (eocdBad, st2), log) →
      (readTableOfContents arcBad st).1 =
        Except.ok
          (([entryA] : List FileEntry).map
            (fun en => if en.isDirectory then en else calculateFileDataOffset en),
           st2)) :=
  readCentralDirectory_partial_success arcBad eocdBad 2 [entryA] 47
    (by decide) (by decide) (by decide) (by decide)

/-- The EOCD locator issues exactly one range request. -/
theorem findEOCD_one_read (file : List Nat) (st : ZipReader) :
    (findEOCD file st).2.length = 1 := rfl

/-- Claim C4 (confirmed): for an archive on which the EOCD is located and
all `totalEntryCount` central-directory entries decode, the listing returns
exactly `totalEntryCount` entries, in central-directory order (the
`Promise.all` join is an index-preserving map over the decoded sequence),
and issues at most two range reads before directory decode: the trailing
window and the central-directory bytes.  The hypotheses place no constraint
on the EOCD comment length, so any comment length, 0 or 65535 included, is
covered. -/
theorem readTableOfContents_spec (file : List Nat) (st st2 : ZipReader)
    (eocd : EOCD) (log1 : List (Nat × Nat)) (es : List FileEntry) (fin : Nat)
    (hfind : findEOCD file st = (Except.ok (eocd, st2), log1))
    (hall : parseN (centralDirBuffer file eocd) eocd.totalEntryCount 0 =
      Except.ok (es, fin)) :
    (readTableOfContents file st).1 =
      Except.ok
        (es.map fun en => if en.isDirectory then en else calculateFileDataOffset en,
         st2) ∧
    (es.map fun en => if en.isDirectory then en else calculateFileDataOffset en).length =
      eocd.totalEntryCount ∧
    (readTableOfContents file st).2.length ≤ 2 := by
  have hre : readEntries (centralDirBuffer file eocd) eocd.totalEntryCount 0 = es :=
    readEntries_of_parseN_ok (centralDirBuffer file eocd) _ _ _ _ hall
  have hlog : log1.length = 1 := by
    have h2 := congrArg Prod.snd hfind
    simp only at h2
    rw [← h2]
    exact findEOCD_one_read file st
  refine ⟨?_, ?_, ?_⟩
  · simp only [readTableOfContents, hfind, readCentralDirectory, hre]
  · rw [List.length_map]
    exact parseN_length _ _ _ _ _ hall
  · simp only [readTableOfContents, hfind, readCentralDirectory]
    simp [hlog]

/-- Witness for claim C4 on the well-formed one-entry fixture archive. -/
theorem readTableOfContents_spec_witness :
    (readTableOfContents arc1 (mkZipReader "u")).1 =
      Except.ok
        (([entryA] : List FileEntry).map
          (fun en => if en.isDirectory then en else calculateFileDataOffset en),
         { url := "u", fileSize := 101 }) ∧
    (([entryA] : List FileEntry).map
      (fun en => if en.isDirectory then en else calculateFileDataOffset en)).length =
      eocd1.totalEntryCount ∧
    (readTableOfContents arc1 (mkZipReader "u")).2.length ≤ 2 :=
  readTableOfContents_spec arc1 (mkZipReader "u") { url := "u", fileSize := 101 }
    eocd1 [(0, 100)] [entryA] 47 (by decide) (by decide)

/-- Claim C8 (confirmed): every decoded central-directory entry is
classified as a directory iff its name ends with the path separator, and as
an image iff it is not a directory and its lowercased name ends with
`.jpg`, `.jpeg`, or `.png`. -/
theorem parseCentralDirEntry_classification (buffer : List Nat) (off : Nat)
    (e : FileEntry) (noff : Nat)
    (h : parseCentralDirEntry buffer off = Except.ok (e, noff)) :
    e.isDirectory = jsEndsWith e.fileName "/" ∧
    e.isImage = (!e.isDirectory &&
      (jsEndsWith (jsToLowerCase e.fileName) ".jpg" ||
       jsEndsWith (jsToLowerCase e.fileName) ".jpeg" ||
       jsEndsWith (jsToLowerCase e.fileName) ".png")) := by
  simp only [parseCentralDirEntry] at h
  split at h
  · exact absurd h (by simp)
  · split at h
    · split at h
      · split at h
        · simp only [Except.ok.injEq, Prod.mk.injEq] at h
          obtain ⟨he, hn⟩ := h
          subst he
          exact ⟨rfl, rfl⟩
        · exact absurd h (by simp)
      · exact absurd h (by simp)
    · exact absurd h (by simp)

/-- Witness for claim C8 at the entry decoded from the fixture central
directory. -/
theorem parseCentralDirEntry_classification_witness :
    entryA.isDirectory = jsEndsWith entryA.fileName "/" ∧
    entryA.isImage = (!entryA.isDirectory &&
      (jsEndsWith (jsToLowerCase entryA.fileName) ".jpg" ||
       jsEndsWith (jsToLowerCase entryA.fileName) ".jpeg" ||
       jsEndsWith (jsToLowerCase entryA.fileName) ".png")) :=
  parseCentralDirEntry_classification (centralDirBuffer arc1 eocd1) 0 entryA 47 (by decide)

/-- Length of the slice a conforming range server returns. -/
theorem sliceRange_length (file : List Nat) (s e : Nat) :
    (sliceRange file s e).length = min (e + 1 - s) (file.length - s) := by
  simp [sliceRange]

/-- Claim C6 (confirmed): extracting a resolved, in-bounds entry issues
exactly one range read over `[dataOffset, dataOffset + compressedSize - 1]`,
returns a buffer whose length equals the recorded compressed size, and
assigns image/png for a lowercased `.png` suffix, image/jpeg for `.jpg` or
`.jpeg`, and the generic binary kind otherwise. -/
theorem extractFile_spec (file : List Nat) (entry : FileEntry) (d : Nat)
    (hres : entry.dataOffset = some d) (hd : d ≠ 0)
    (hbound : d + entry.compressedSize ≤ file.length) :
    (extractFile file entry).2 = [(d, d + entry.compressedSize - 1)] ∧
    (extractFile file entry).1.bytes.length = entry.compressedSize ∧
    (extractFile file entry).1.kind = specContentKind entry.fileName := by
  have hens : ensureResolved entry = entry := by
    unfold ensureResolved
    rw [hres]
    simp only [Option.getD]
    rw [if_neg hd]
  have hd30 : 1 ≤ d := by omega
  refine ⟨?_, ?_, ?_⟩
  · simp [extractFile, hens, hres]
  · simp only [extractFile, hens, hres, Option.getD]
    split
    · simp only []
      rw [sliceRange_length]
      omega
    · simp only []
      rw [sliceRange_length]
      omega
  · simp only [extractFile, hens, hres, Option.getD, specContentKind]
    by_cases h1 : jsEndsWith (jsToLowerCase entry.fileName) ".png"
    · simp [h1]
    · by_cases h2 : jsEndsWith (jsToLowerCase entry.fileName) ".jpg"
      · simp [h1, h2]
      · by_cases h3 : jsEndsWith (jsToLowerCase entry.fileName) ".jpeg"
        · simp [h1, h2, h3]
        · simp [h1, h2, h3]

/-- Witness for claim C6: extracting the resolved fixture entry reads
exactly the single stored data byte. -/
theorem extractFile_spec_witness :
    (extractFile arc1 (calculateFileDataOffset entryA)).2 = [(31, 31 + (calculateFileDataOffset entryA).compressedSize - 1)] ∧
    (extractFile arc1 (calculateFileDataOffset entryA)).1.bytes.length =
      (calculateFileDataOffset entryA).compressedSize ∧
    (extractFile arc1 (calculateFileDataOffset entryA)).1.kind =
      specContentKind (calculateFileDataOffset entryA).fileName :=
  extractFile_spec arc1 (calculateFileDataOffset entryA) 31 (by decide) (by decide) (by decide)

/-- The trailing-window size `min(65535 + 22, archiveLength)` used by
`findEOCD`. -/
def windowSize (file : List Nat) : Nat := min (65535 + 22) file.length

/-- The archive position at which the trailing window begins. -/
def windowStart (file : List Nat) : Nat := file.length - windowSize file

/-- The trailing window `findEOCD` reads from the conforming server. -/
def eocdWindow (file : List Nat) : List Nat :=
  sliceRange file (windowStart file) (file.length - 1)

/-- The trailing window holds exactly `windowSize` bytes. -/
theorem eocdWindow_length (file : List Nat) :
    (eocdWindow file).length = windowSize file := by
  simp only [eocdWindow, windowStart, windowSize]
  rw [sliceRange_length]
  omega

/-- The backward scan returns the greatest index `i ≤ n` at which the EOCD
signature stands. -/
theorem eocdScan_eq_some (bytes : List Nat) :
    ∀ n i, i ≤ n → sigAtEOCD bytes i = true →
      (∀ j, i < j → j ≤ n → sigAtEOCD bytes j = false) →
      eocdScan bytes n = some i := by
  intro n
  induction n with
  | zero =>
    intro i hi hsig hlast
    have h0 : i = 0 := Nat.le_zero.mp hi
    subst h0
    simp [eocdScan, hsig]
  | succ m ih =>
    intro i hi hsig hlast
    by_cases hs : sigAtEOCD bytes (m + 1) = true
    · have hieq : i = m + 1 := by
        by_contra hne
        have hlt : i < m + 1 := lt_of_le_of_ne hi hne
        have hfalse := hlast (m + 1) hlt (le_refl _)
        rw [hfalse] at hs
        exact absurd hs (by simp)
      subst hieq
      simp [eocdScan, hs]
    · rw [eocdScan, if_neg hs]
      apply ih
      · rcases Nat.lt_or_ge i (m + 1) with h | h
        · omega
        · exfalso
          have hieq : i = m + 1 := by omega
          rw [hieq] at hsig
          exact hs hsig
      · exact hsig
      · intro j hj1 hj2
        exact hlast j hj1 (by omega)

/-- The backward scan finds nothing when no index up to `n` carries the
signature. -/
theorem eocdScan_eq_none (bytes : List Nat) :
    ∀ n, (∀ i, i ≤ n → sigAtEOCD bytes i = false) → eocdScan bytes n = none := by
  intro n
  induction n with
  | zero =>
    intro h
    simp [eocdScan, h 0 (le_refl 0)]
  | succ m ih =>
    intro h
    rw [eocdScan, if_neg (by simp [h (m + 1) (le_refl _)])]
    exact ih fun i hi => h i (by omega)

/-- On a buffer of at least 22 bytes whose first four bytes are the EOCD
signature, `parseEOCD` succeeds. -/
theorem parseEOCD_total (s : List Nat) (hlen : 22 ≤ s.length)
    (h0 : s.get? 0 = some 0x50) (h1 : s.get? 1 = some 0x4b)
    (h2 : s.get? 2 = some 0x05) (h3 : s.get? 3 = some 0x06) :
    ∃ r, parseEOCD s = some r := by
  have hget : ∀ k, k < 22 → ∃ v, s.get? k = some v := fun k hk =>
    ⟨s.get ⟨k, lt_of_lt_of_le hk hlen⟩, List.get?_eq_get _⟩
  obtain ⟨v4, e4⟩ := hget 4 (by omega)
  obtain ⟨v5, e5⟩ := hget 5 (by omega)
  obtain ⟨v6, e6⟩ := hget 6 (by omega)
  obtain ⟨v7, e7⟩ := hget 7 (by omega)
  obtain ⟨v8, e8⟩ := hget 8 (by omega)
  obtain ⟨v9, e9⟩ := hget 9 (by omega)
  obtain ⟨v10, e10⟩ := hget 10 (by omega)
  obtain ⟨v11, e11⟩ := hget 11 (by omega)
  obtain ⟨v12, e12⟩ := hget 12 (by omega)
  obtain ⟨v13, e13⟩ := hget 13 (by omega)
  obtain ⟨v14, e14⟩ := hget 14 (by omega)
  obtain ⟨v15, e15⟩ := hget 15 (by omega)
  obtain ⟨v16, e16⟩ := hget 16 (by omega)
  obtain ⟨v17, e17⟩ := hget 17 (by omega)
  obtain ⟨v18, e18⟩ := hget 18 (by omega)
  obtain ⟨v19, e19⟩ := hget 19 (by omega)
  obtain ⟨v20, e20⟩ := hget 20 (by omega)
  obtain ⟨v21, e21⟩ := hget 21 (by omega)
  cases hp : parseEOCD s with
  | some r => exact ⟨r, rfl⟩
  | none =>
    exfalso
    simp only [parseEOCD, getU32, getU16, h0, h1, h2, h3, e4, e5, e6, e7, e8,
      e9, e10, e11, e12, e13, e14, e15, e16, e17, e18, e19, e20, e21] at hp
    exact Option.noConfusion hp

/-- When index `i` is the last position of the window at which the EOCD
signature stands with the full 22-byte record fitting, the core scan and
decode return the record decoded there, stamped `startPos + i`. -/
theorem findEOCDCore_last_match (bytes : List Nat) (startPos i : Nat)
    (hfit : i + 22 ≤ bytes.length) (hsig : sigAtEOCD bytes i = true)
    (hlast : ∀ j, i < j → j + 22 ≤ bytes.length → sigAtEOCD bytes j = false) :
    ∃ record, parseEOCD ((bytes.drop i).take 22) = some record ∧
      findEOCDCore bytes startPos =
        Except.ok { record with absoluteOffset := startPos + i } := by
  have h22 : ¬ (bytes.length < 22) := by omega
  have hscan : eocdScan bytes (bytes.length - 22) = some i :=
    eocdScan_eq_some bytes _ i (by omega) hsig
      (fun j hj1 hj2 => hlast j hj1 (by omega))
  have hsig4 := hsig
  simp only [sigAtEOCD, Bool.and_eq_true, beq_iff_eq] at hsig4
  obtain ⟨⟨⟨hs0, hs1⟩, hs2⟩, hs3⟩ := hsig4
  have hslen : 22 ≤ ((bytes.drop i).take 22).length := by
    rw [List.length_take, List.length_drop]
    omega
  have hsget : ∀ k, k < 22 → ((bytes.drop i).take 22).get? k = bytes.get? (i + k) :=
    fun k hk => by rw [List.get?_take hk, List.get?_drop]
  have h0 : ((bytes.drop i).take 22).get? 0 = some 0x50 := by
    rw [hsget 0 (by omega), Nat.add_zero]
    exact hs0
  have h1 : ((bytes.drop i).take 22).get? 1 = some 0x4b := by
    rw [hsget 1 (by omega)]
    exact hs1
  have h2 : ((bytes.drop i).take 22).get? 2 = some 0x05 := by
    rw [hsget 2 (by omega)]
    exact hs2
  have h3 : ((bytes.drop i).take 22).get? 3 = some 0x06 := by
    rw [hsget 3 (by omega)]
    exact hs3
  obtain ⟨r, hr⟩ := parseEOCD_total _ hslen h0 h1 h2 h3
  refine ⟨r, hr, ?_⟩
  simp only [findEOCDCore, hscan, hr]
  rw [if_neg h22]

/-- When no position of the window at which the full record fits carries
the signature, the core scan fails with the record-not-found error. -/
theorem findEOCDCore_no_match (bytes : List Nat) (startPos : Nat)
    (hnone : ∀ i, i + 22 ≤ bytes.length → sigAtEOCD bytes i = false) :
    findEOCDCore bytes startPos = Except.error ZipError.recordNotFoundError := by
  by_cases h22 : bytes.length < 22
  · unfold findEOCDCore
    rw [if_pos h22]
  · have hscan : eocdScan bytes (bytes.length - 22) = none :=
      eocdScan_eq_none bytes _ (fun i hi => hnone i (by omega))
    simp only [findEOCDCore, hscan]
    rw [if_neg h22]

/-- Claim C5 as amended: on a fresh handle the locator reads exactly the
last `min(65557, archiveLength)` bytes in one range read and scans that
window backward byte by byte, starting at `windowLength - 22`, so that only
positions where the full 22-byte record fits inside the window are
examined.  It returns the record decoded at the last such signature
occurrence together with the absolute archive position of that occurrence,
and it fails with `RecordNotFoundError` when no occurrence at such a
position exists; in particular an occurrence lying in the final 21 bytes of
the window is not considered. -/
theorem findEOCD_locator_amended (file : List Nat) (u : String) :
    (findEOCD file (mkZipReader u)).2 = [(windowStart file, file.length - 1)] ∧
    (∀ i, i + 22 ≤ windowSize file → sigAtEOCD (eocdWindow file) i = true →
      (∀ j, i < j → j + 22 ≤ windowSize file → sigAtEOCD (eocdWindow file) j = false) →
      ∃ record, parseEOCD (((eocdWindow file).drop i).take 22) = some record ∧
        (findEOCD file (mkZipReader u)).1 =
          Except.ok ({ record with absoluteOffset := windowStart file + i },
            { url := u, fileSize := file.length })) ∧
    ((∀ i, i + 22 ≤ windowSize file → sigAtEOCD (eocdWindow file) i = false) →
      (findEOCD file (mkZipReader u)).1 = Except.error ZipError.recordNotFoundError) := by
  have hunf : findEOCD file (mkZipReader u) =
      (match findEOCDCore (eocdWindow file) (windowStart file) with
       | Except.ok record =>
         Except.ok (record, ({ url := u, fileSize := file.length } : ZipReader))
       | Except.error err => Except.error err,
       [(windowStart file, file.length - 1)]) := rfl
  have hwlen := eocdWindow_length file
  refine ⟨by rw [hunf], ?_, ?_⟩
  · intro i hfit hsig hlast
    obtain ⟨r, hr, hcore⟩ := findEOCDCore_last_match (eocdWindow file)
      (windowStart file) i (by rw [hwlen]; omega) hsig
      (fun j hj1 hj2 => hlast j hj1 (by rw [hwlen] at hj2; omega))
    refine ⟨r, hr, ?_⟩
    rw [hunf]
    simp only [hcore]
  · intro hnone
    have hcore := findEOCDCore_no_match (eocdWindow file) (windowStart file)
      (fun i hi => hnone i (by rw [hwlen] at hi; omega))
    rw [hunf]
    simp only [hcore]

/-- Witness for the amended claim C5: on the one-entry fixture archive the
last fitting signature occurrence is at window index 79, and the locator
returns the record decoded there at absolute position 79. -/
theorem findEOCD_locator_amended_witness :
    (findEOCD arc1 (mkZipReader "u")).2 = [(windowStart arc1, arc1.length - 1)] ∧
    ∃ record, parseEOCD (((eocdWindow arc1).drop 79).take 22) = some record ∧
      (findEOCD arc1 (mkZipReader "u")).1 =
        Except.ok ({ record with absoluteOffset := windowStart arc1 + 79 },
          { url := "u", fileSize := arc1.length }) := by
  have h := findEOCD_locator_amended arc1 "u"
  refine ⟨h.1, h.2.1 79 (by decide) (by decide) ?_⟩
  intro j hj1 hj2
  rw [show windowSize arc1 = 101 from by decide] at hj2
  exact absurd hj1 (by omega)

/-- Claim C5, counterexample.  The claim says the locator fails with
`RecordNotFoundError` only when no signature occurrence exists in the
window, and otherwise returns the record at the last occurrence.  On the
30-byte fixture whose only occurrence starts at window index 12 (inside the
final 21 bytes, where the 22-byte record cannot fit), the scan, which
starts at `windowLength - 22 = 8`, never sees it and the locator fails even
though an occurrence exists in the window. -/
theorem findEOCD_misses_tail_occurrence :
    sigAtEOCD (eocdWindow arcTailSig) 12 = true ∧
    12 + 4 ≤ (eocdWindow arcTailSig).length ∧
    (findEOCD arcTailSig (mkZipReader "u")).1 =
      Except.error ZipError.recordNotFoundError := by
  decide
